import Mathlib

/-!
Verification of the spyderbat-event-forwarder ingestion core
(src/spyderbat-event-forwarder/forwarder.go) against its natural-language
specification.

Modelling conventions:
* record bytes are `List Nat`;
* domain time (record.RecordTime) and wall-clock time are both `Int`,
  measured in seconds on one timeline;
* external collaborators (the backend API object `sapi`, fastjson,
  encoding/json together with the record package, url.QueryEscape, and the
  filesystem as reached through os.Open) are parameters collected in `Env`;
* the BLAKE2b digest of a byte sequence is modelled as a collision-free
  fingerprint, concretely the identity on byte lists.
-/

/-- Digest of raw line bytes (forwarder.go:254 and forwarder.go:76,
blake2b.Sum256). The external cryptographic hash is modelled as a
collision-free fingerprint of the bytes, concretely the identity. -/
def blake2bSum256 (b : List Nat) : List Nat := b

/-- Capacity of the dedup cache (forwarder.go:40, dedupCacheElements). -/
def dedupCacheElements : Nat := 65536 * 10

/-- Membership test of the LRU dedup cache (groupcache lru.Cache.Get hit
test, forwarder.go:255). The cache state is its list of keys, most recently
used first. -/
def lruContains (c : List (List Nat)) (k : List Nat) : Bool := c.contains k

/-- Recency effect of groupcache lru.Cache.Get (forwarder.go:255): a hit
moves the key to the front of the recency order; a miss changes nothing. -/
def lruGet (c : List (List Nat)) (k : List Nat) : List (List Nat) :=
  if c.contains k then k :: c.erase k else c

/-- groupcache lru.Cache.Add (forwarder.go:259 and forwarder.go:76): an
existing key moves to the front; a new key is pushed to the front, and the
least recently used entry is evicted when the length exceeds the capacity. -/
def lruAdd (c : List (List Nat)) (k : List Nat) : List (List Nat) :=
  if c.contains k then k :: c.erase k
  else if (k :: c).length > dedupCacheElements then (k :: c).dropLast
  else k :: c

/-- File reachable by os.Open from the process working directory: its
scanned lines plus a flag modelling a bufio scanner error after those lines
(forwarder.go:62, forwarder.go:68, forwarder.go:78). -/
structure CwdFile where
  lines : List (List Nat)
  scanErr : Bool

/-- External collaborators of the forwarder.

`unmarshalTime` is modelled from the spec: the record package is not part of
the sources, so json.Unmarshal into record.Record (forwarder.go:71 and
forwarder.go:262) is modelled as an abstract decoder of a line's time field;
`none` models a decode error (including syntactically invalid JSON), `some t`
a successfully decoded record time.

`augment` models sapi.AugmentRuntimeDetailsJSON (forwarder.go:274), a
best-effort in-place rewrite of the record bytes. `validateOk` models
fastjson.ValidateBytes returning nil (forwarder.go:277). `getString` models
fastjson.GetString (forwarder.go:116, forwarder.go:283). `queryEscape`
models url.QueryEscape (forwarder.go:118). `cwd` models os.Open by plain
file name, resolved against the process working directory (forwarder.go:62);
`none` is an open error. -/
structure Env where
  unmarshalTime : List Nat → Option Int
  augment : List Nat → List Nat
  validateOk : List Nat → Bool
  getString : List Nat → String → String
  queryEscape : String → String
  cwd : String → Option CwdFile

/-- Configuration fields of config.Config used by the pipeline
(forwarder.go:283, forwarder.go:118). -/
structure Cfg where
  linkback : Bool
  uiUrl : String
  orgUID : String

/-- Byte representation of a string, as used when the source concatenates
string fragments into record bytes. -/
def strBytes (s : String) : List Nat := s.data.map Char.toNat

/-- addLinkback (forwarder.go:115-121): drop the record's final byte (the
closing brace), append a quoted linkback URL under a new key, and close the
object again with a brace (byte 125). -/
def addLinkback (env : Env) (cfg : Cfg) (record : List Nat) : List Nat :=
  let muid := env.getString record ("muid")
  let id := env.getString record ("id")
  let d := strBytes ("\"" ++ cfg.uiUrl ++ "/app/org/" ++ cfg.orgUID ++ "/source/" ++ muid ++ "/spyder-console?ids=" ++ env.queryEscape id ++ "\"")
  record.dropLast ++ (strBytes (",\x22linkback\x22:") ++ d) ++ [125]

/-- Mutable per-process pipeline state: the dedup cache and the tracked
last-seen record time (lastTime in forwarder.go:149, forwarder.go:267). -/
structure PState where
  cache : List (List Nat)
  lastTime : Int
deriving DecidableEq

/-- Argument of a log.Printf call on the error path for invalid records.
The source passes the response stream reader r (forwarder.go:296); the
`line` constructor exists to state what passing the offending line itself
would look like. -/
inductive LogRef where
  | stream
  | line (b : List Nat)
deriving DecidableEq

/-- Observable effects of processing one line: whether the newRecords
counter was incremented (forwarder.go:258), whether the augmentation
collaborator was invoked (forwarder.go:274), the invalid-record log entries
(forwarder.go:296), and the lines printed to the event log, in order
(forwarder.go:286, forwarder.go:293). -/
structure LineEffects where
  countedNew : Bool
  augmentCalled : Bool
  invalidLogs : List LogRef
  emitted : List (List Nat)
deriving DecidableEq

/-- Filter loop of the pipeline (forwarder.go:281-288): for each compiled
expression, match it against the serialized record text s captured before
the loop; on a match, possibly extend the (mutated across iterations)
record with a linkback, then print it. Returns the printed lines and the
final record value. -/
def filterLoop (env : Env) (cfg : Cfg) (s : List Nat) (record : List Nat) :
    List (List Nat → Bool) → List (List Nat) × List Nat
  | [] => ([], record)
  | rg :: rest =>
    if rg s then
      let record2 := if cfg.linkback || (env.getString record ("linkback") != "") then addLinkback env cfg record else record
      let res := filterLoop env cfg s record2 rest
      (record2 :: res.1, res.2)
    else filterLoop env cfg s record rest

/-- Per-line body of the record pipeline (forwarder.go:251-298): digest the
line; on a cache hit skip it entirely; otherwise insert the digest, count it
new, decode the time field (a decode error skips the rest of the line),
ratchet lastTime, augment, validate, and either emit through the filter set
or log the invalid record. `regs` is the list of compiled filter
expressions; the filter flag of forwarder.go:166 is its nonemptiness. -/
def processLine (env : Env) (cfg : Cfg) (regs : List (List Nat → Bool))
    (ps : PState) (record : List Nat) : PState × LineEffects :=
  let sum := blake2bSum256 record
  if lruContains ps.cache sum then
    ({ cache := lruGet ps.cache sum, lastTime := ps.lastTime },
     { countedNew := false, augmentCalled := false, invalidLogs := [], emitted := [] })
  else
    let cache := lruAdd ps.cache sum
    match env.unmarshalTime record with
    | none =>
      ({ cache := cache, lastTime := ps.lastTime },
       { countedNew := true, augmentCalled := false, invalidLogs := [], emitted := [] })
    | some t =>
      let lastTime := if t > ps.lastTime then t else ps.lastTime
      let record2 := env.augment record
      if env.validateOk record2 then
        if !regs.isEmpty then
          let res := filterLoop env cfg record2 record2 regs
          ({ cache := cache, lastTime := lastTime },
           { countedNew := true, augmentCalled := true, invalidLogs := [], emitted := res.1 })
        else
          let record3 := if cfg.linkback || (env.getString record2 ("linkback") != "") then addLinkback env cfg record2 else record2
          ({ cache := cache, lastTime := lastTime },
           { countedNew := true, augmentCalled := true, invalidLogs := [], emitted := [record3] })
      else
        ({ cache := cache, lastTime := lastTime },
         { countedNew := true, augmentCalled := true, invalidLogs := [LogRef.stream], emitted := [] })

/-- Processing of a whole stream of lines in arrival order
(forwarder.go:251), threading the pipeline state and collecting each line's
effects. -/
def processLines (env : Env) (cfg : Cfg) (regs : List (List Nat → Bool))
    (ps : PState) : List (List Nat) → PState × List LineEffects
  | [] => (ps, [])
  | b :: rest =>
    let r1 := processLine env cfg regs ps b
    let r2 := processLines env cfg regs r1.1 rest
    (r2.1, r1.2 :: r2.2)

/-- minQueryOverlap (forwarder.go:38), in seconds. -/
def minQueryOverlap : Int := 5 * 60

/-- Maximum lookback of a query window (forwarder.go:236, 4 * time.Hour),
in seconds. -/
def maxLookback : Int := 4 * 60 * 60

/-- Query-window computation of one main-loop cycle (forwarder.go:219-239):
end is the current instant; start is the tracked last-seen time when
positive, else the value carried over in st; then start is clamped to at
least minQueryOverlap and at most maxLookback before end. -/
def computeWindow (stPrev lastTime et : Int) : Int × Int :=
  let st := if lastTime > 0 then lastTime else stPrev
  let st := if st > et - minQueryOverlap then et - minQueryOverlap else st
  let st := if st < et - maxLookback then et - maxLookback else st
  (st, et)

/-- Entry of the directory tree walked by fs.WalkDir (forwarder.go:53). A
file node carries the bytes stored on disk at that path; fs.DirEntry exposes
only the name and type, and the walk callback opens files by bare name
through the working directory (forwarder.go:62), so the walk never reads a
file node's own content. -/
inductive DirEnt where
  | file (name : String) (content : List (List Nat))
  | dir (name : String) (children : List DirEnt)

/-- Accumulator of the walk: the running maximal record time
(forwarder.go:50), the digests added to the dedup cache in order
(forwarder.go:76), and the names passed to os.Open (forwarder.go:62). -/
structure WAcc where
  lastTime : Int
  adds : List (List Nat)
  opened : List String
deriving DecidableEq

/-- strings.HasPrefix (forwarder.go:61), over the characters. -/
def goHasPre (s pre : String) : Bool := pre.data.isPrefixOf s.data

/-- strings.HasSuffix (forwarder.go:61), over the characters. -/
def goHasSuf (s suf : String) : Bool := suf.data.reverse.isPrefixOf s.data.reverse

/-- Scanner loop over one opened file (forwarder.go:69-77): for every line,
a successful unmarshal whose time exceeds the running maximum raises it, and
the digest of the line is added to the cache in any case. -/
def scanLines (env : Env) (acc : WAcc) : List (List Nat) → WAcc
  | [] => acc
  | b :: rest =>
    let lt := match env.unmarshalTime b with
      | some t => if t > acc.lastTime then t else acc.lastTime
      | none => acc.lastTime
    scanLines env { lastTime := lt, adds := acc.adds ++ [blake2bSum256 b], opened := acc.opened } rest

/-- Handling of one regular file during the walk (forwarder.go:61-81): a
name with the fixed prefix and suffix is opened by bare name against the
working directory; an open error aborts the walk, otherwise the file is
scanned and a scanner error aborts the walk after the scanned lines were
already hashed. -/
def visitFile (env : Env) (acc : WAcc) (name : String) : WAcc × Bool :=
  if goHasPre name ("spyderbat_events") && goHasSuf name (".log") then
    match env.cwd name with
    | none => (acc, true)
    | some f =>
      let acc2 := scanLines env { acc with opened := acc.opened ++ [name] } f.lines
      (acc2, f.scanErr)
  else (acc, false)

mutual

/-- Walk callback on one entry below the root (forwarder.go:54-82): a
directory whose name differs from the cleaned log path is skipped with
fs.SkipDir; a directory whose name equals it is descended into; a regular
file is handled by visitFile. The Bool is true when the walk aborts with an
error. -/
def walkEnt (env : Env) (lp : String) (acc : WAcc) : DirEnt → WAcc × Bool
  | .file name _ => visitFile env acc name
  | .dir name children =>
    if name ≠ lp then (acc, false)
    else walkEnts env lp acc children

/-- Walk over a directory listing in order, stopping at the first error. -/
def walkEnts (env : Env) (lp : String) (acc : WAcc) : List DirEnt → WAcc × Bool
  | [] => (acc, false)
  | e :: rest =>
    match walkEnt env lp acc e with
    | (acc2, true) => (acc2, true)
    | (acc2, false) => walkEnts env lp acc2 rest

end

/-- Final path component of a cleaned path, following filepath.Base on the
output of filepath.Clean (forwarder.go:52): a cleaned path has no trailing
or duplicate separator, so its base is the root path itself or the
characters after the last separator. -/
def goBase (p : String) : String :=
  if p = "/" then "/"
  else String.mk ((p.data.reverse.takeWhile (fun c => c ≠ '/')).reverse)

/-- Result of loadState (forwarder.go:49-88): the returned record time
(zero on error), the cache insertions that happened (they persist in the
process-global cache even when an error is returned), the os.Open calls
made, and whether an error was returned. -/
structure LoadResult where
  time : Int
  adds : List (List Nat)
  opened : List String
  err : Bool
deriving DecidableEq

/-- loadState (forwarder.go:49-88) on the cleaned log path and the listing
of the directory at that path. The walk callback is first invoked on the
root directory itself, whose fs.DirEntry name is the final path component;
since the callback compares that name against the whole cleaned path
(forwarder.go:54), a multi-component path makes the callback answer
fs.SkipDir at the root and the walk ends at once with no error. -/
def loadState (env : Env) (logPath : String) (entries : List DirEnt) : LoadResult :=
  if goBase logPath ≠ logPath then { time := 0, adds := [], opened := [], err := false }
  else
    match walkEnts env logPath { lastTime := 0, adds := [], opened := [] } entries with
    | (acc, true) => { time := 0, adds := acc.adds, opened := acc.opened, err := true }
    | (acc, false) => { time := acc.lastTime, adds := acc.adds, opened := acc.opened, err := false }

/-- Startup handling of the loadState result (forwarder.go:149-152): the
returned time becomes the tracked last-seen timestamp; an error is only
logged and startup proceeds. -/
def mainInitLastTime (env : Env) (logPath : String) (entries : List DirEnt) : Int :=
  (loadState env logPath entries).time

/-- Helper: after lruAdd, the added key is present. -/
theorem lruContains_lruAdd (c : List (List Nat)) (k : List Nat) :
    lruContains (lruAdd c k) k = true := by
  unfold lruContains lruAdd
  by_cases h : c.contains k
  · have hm : k ∈ c := List.elem_iff.mp h
    simp [List.elem_iff, hm]
  · rw [if_neg h]
    split
    · rename_i hl
      cases c with
      | nil => simp [dedupCacheElements] at hl
      | cons a l => simp [List.elem_iff]
    · simp [List.elem_iff]

/-- Helper: lruGet preserves the presence of the queried key. -/
theorem lruContains_lruGet (c : List (List Nat)) (k : List Nat)
    (h : lruContains c k = true) : lruContains (lruGet c k) k = true := by
  unfold lruContains lruGet at *
  have hm : k ∈ c := List.elem_iff.mp h
  simp [List.elem_iff, hm]

/-- Helper: the cache component after one pipeline pass is lruGet on a hit
and lruAdd on a miss, in every branch of the body. -/
theorem processLine_cache_eq (env : Env) (cfg : Cfg) (regs : List (List Nat → Bool))
    (ps : PState) (b : List Nat) :
    (processLine env cfg regs ps b).1.cache =
      if lruContains ps.cache (blake2bSum256 b) then lruGet ps.cache (blake2bSum256 b)
      else lruAdd ps.cache (blake2bSum256 b) := by
  unfold processLine
  by_cases h : lruContains ps.cache (blake2bSum256 b) <;> simp only [h, if_true, Bool.false_eq_true, if_false]
  cases env.unmarshalTime b with
  | none => rfl
  | some t =>
    dsimp only
    split <;> [skip; rfl]
    split <;> rfl

/-- Helper: the digest of a processed line is in the cache right after the
pass that processed it. -/
theorem processLine_cache_mem (env : Env) (cfg : Cfg) (regs : List (List Nat → Bool))
    (ps : PState) (b : List Nat) :
    lruContains (processLine env cfg regs ps b).1.cache (blake2bSum256 b) = true := by
  rw [processLine_cache_eq]
  by_cases h : lruContains ps.cache (blake2bSum256 b)
  · simp only [h, if_true]
    exact lruContains_lruGet _ _ h
  · simp only [h, Bool.false_eq_true, if_false]
    exact lruContains_lruAdd _ _

/-- Helper: a cache hit short-circuits the whole line body
(forwarder.go:255-256): only the recency order is refreshed. -/
theorem processLine_hit (env : Env) (cfg : Cfg) (regs : List (List Nat → Bool))
    (ps : PState) (b : List Nat)
    (h : lruContains ps.cache (blake2bSum256 b) = true) :
    processLine env cfg regs ps b =
      ({ cache := lruGet ps.cache (blake2bSum256 b), lastTime := ps.lastTime },
       { countedNew := false, augmentCalled := false, invalidLogs := [], emitted := [] }) := by
  unfold processLine
  simp [h]

/-- C1: after a record byte sequence passes through the pipeline, its digest
is in the dedup cache; and if the same bytes arrive again — after any
interleaved lines, in the same cycle or a later one — while the digest is
still in the cache, the second occurrence is skipped entirely: the state
keeps its tracked timestamp, only the recency order is refreshed, and the
pass performs no augmentation, no emission, no invalid-record log and no
new-record count increment, so only the first occurrence can emit the
record. -/
theorem C1_duplicate_skipped (env : Env) (cfg : Cfg) (regs : List (List Nat → Bool))
    (ps : PState) (b : List Nat) (ms : List (List Nat)) :
    lruContains (processLine env cfg regs ps b).1.cache (blake2bSum256 b) = true ∧
    (lruContains (processLines env cfg regs (processLine env cfg regs ps b).1 ms).1.cache (blake2bSum256 b) = true →
      processLine env cfg regs (processLines env cfg regs (processLine env cfg regs ps b).1 ms).1 b =
        ({ cache := lruGet (processLines env cfg regs (processLine env cfg regs ps b).1 ms).1.cache (blake2bSum256 b),
           lastTime := (processLines env cfg regs (processLine env cfg regs ps b).1 ms).1.lastTime },
         { countedNew := false, augmentCalled := false, invalidLogs := [], emitted := [] })) :=
  ⟨processLine_cache_mem env cfg regs ps b,
   fun h => processLine_hit env cfg regs _ b h⟩

/-- Concrete environment used by witnesses: every line decodes to time 1,
augmentation and escaping are the identity, validation succeeds, string
fields are empty, and no file opens succeed. -/
def envW : Env :=
  { unmarshalTime := fun _ => some 1, augment := id, validateOk := fun _ => true,
    getString := fun _ _ => "", queryEscape := id, cwd := fun _ => none }

/-- Concrete configuration used by witnesses: linkbacks disabled. -/
def cfgW : Cfg := { linkback := false, uiUrl := "u", orgUID := "o" }

/-- Witness for C1 at a concrete input: the line [7] processed from the
empty state lands in the cache, and feeding [7] again right away is a
no-effect skip. -/
theorem C1_witness :
    lruContains (processLines envW cfgW [] (processLine envW cfgW [] ⟨[], 0⟩ [7]).1 []).1.cache (blake2bSum256 [7]) = true ∧
    processLine envW cfgW [] ⟨[[7]], 1⟩ [7] =
      (⟨[[7]], 1⟩,
       { countedNew := false, augmentCalled := false, invalidLogs := [], emitted := [] }) :=
  ⟨by decide, (C1_duplicate_skipped envW cfgW [] ⟨[], 0⟩ [7] []).2 (by decide)⟩

/-- Helper: the number of event-log prints made by the filter loop equals
the number of filter expressions matching the captured serialized text s,
whatever the running record value is. -/
theorem filterLoop_length (env : Env) (cfg : Cfg) (s : List Nat) :
    ∀ (regs : List (List Nat → Bool)) (record : List Nat),
      (filterLoop env cfg s record regs).1.length = regs.countP (fun rg => rg s) := by
  intro regs
  induction regs with
  | nil => intro record; rfl
  | cons rg rest ih =>
    intro record
    unfold filterLoop
    by_cases h : rg s
    · simp [h, List.countP_cons, ih]
    · simp [h, List.countP_cons, ih]

/-- C5: a new record that decodes and whose augmented bytes validate is
emitted exactly once when the filter set is empty, and otherwise exactly
once per filter expression matching its serialized text — zero times when
no expression matches. -/
theorem C5_filter_emission_count (env : Env) (cfg : Cfg) (regs : List (List Nat → Bool))
    (ps : PState) (b : List Nat) (t : Int)
    (hnew : lruContains ps.cache (blake2bSum256 b) = false)
    (hparse : env.unmarshalTime b = some t)
    (hvalid : env.validateOk (env.augment b) = true) :
    (processLine env cfg regs ps b).2.emitted.length =
      if regs.isEmpty then 1 else regs.countP (fun rg => rg (env.augment b)) := by
  unfold processLine
  simp only [hnew, Bool.false_eq_true, if_false, hparse]
  simp only [hvalid, if_true]
  by_cases hr : regs.isEmpty
  · simp [hr]
  · simp [hr, filterLoop_length]

/-- Filter set used by the C5 witness: one matching and one non-matching
expression. -/
def regsW : List (List Nat → Bool) := [fun b => b.contains 7, fun _ => false]

/-- Witness for C5 at a concrete input: with one of two patterns matching,
the new record [7] is emitted exactly once. -/
theorem C5_witness :
    lruContains (⟨[], 0⟩ : PState).cache (blake2bSum256 [7]) = false ∧
    envW.unmarshalTime [7] = some 1 ∧
    envW.validateOk (envW.augment [7]) = true ∧
    (processLine envW cfgW regsW ⟨[], 0⟩ [7]).2.emitted.length = 1 :=
  ⟨by decide, rfl, rfl,
   C5_filter_emission_count envW cfgW regsW ⟨[], 0⟩ [7] 1 (by decide) rfl rfl⟩

/-- Linkback attach step applied to a record at the moment it is emitted:
both emission sites guard addLinkback with the same condition, the
configuration flag or a currently non-empty linkback field
(forwarder.go:283-285 and forwarder.go:290-292). -/
def linkbackStep (env : Env) (cfg : Cfg) (r : List Nat) : List Nat :=
  if cfg.linkback || (env.getString r ("linkback") != "") then addLinkback env cfg r else r

/-- Emission trail of the filter loop expressed through the linkback attach
step: each matching expression emits the running record after the step, and
the running record is updated to that value for later matches
(forwarder.go:281-288). -/
def linkbackTrail (env : Env) (cfg : Cfg) (s : List Nat) (r : List Nat) :
    List (List Nat → Bool) → List (List Nat)
  | [] => []
  | rg :: rest =>
    if rg s then linkbackStep env cfg r :: linkbackTrail env cfg s (linkbackStep env cfg r) rest
    else linkbackTrail env cfg s r rest

/-- Helper: the lines printed by the filter loop are exactly its linkback
trail — every filter-path emission is the running record with a linkback
attached precisely under the guard of linkbackStep. -/
theorem filterLoop_emits_trail (env : Env) (cfg : Cfg) (s : List Nat) :
    ∀ (regs : List (List Nat → Bool)) (r : List Nat),
      (filterLoop env cfg s r regs).1 = linkbackTrail env cfg s r regs := by
  intro regs
  induction regs with
  | nil => intro r; rfl
  | cons rg rest ih =>
    intro r
    unfold filterLoop linkbackTrail
    by_cases h : rg s
    · simp only [h, if_true]
      rw [ih]
      rfl
    · simp only [h, Bool.false_eq_true, if_false]
      exact ih r

/-- C7 (amended): for every new, decoding, validating record — the records
that reach emission — and every filter set, each emitted line is the
running record with a linkback attached exactly when the configuration flag
requests one or the record currently holds a non-empty linkback field: with
an empty filter set the single emission is the attach step of the augmented
record, and on the filter path every match emits the attach step of the
running record. In the non-empty-field case another linkback is appended
even with the flag off. -/
theorem C7_linkback_condition (env : Env) (cfg : Cfg) (regs : List (List Nat → Bool))
    (ps : PState) (b : List Nat) (t : Int)
    (hnew : lruContains ps.cache (blake2bSum256 b) = false)
    (hparse : env.unmarshalTime b = some t)
    (hvalid : env.validateOk (env.augment b) = true) :
    (processLine env cfg regs ps b).2.emitted =
      if regs.isEmpty then [linkbackStep env cfg (env.augment b)]
      else linkbackTrail env cfg (env.augment b) (env.augment b) regs := by
  unfold processLine
  simp only [hnew, Bool.false_eq_true, if_false, hparse]
  simp only [hvalid, if_true]
  by_cases hr : regs.isEmpty
  · simp [hr, linkbackStep]
  · simp [hr, filterLoop_emits_trail]

/-- Environment of the C7 counterexample: the record's linkback field reads
as the non-empty string x while every other field is empty. -/
def env7 : Env :=
  { unmarshalTime := fun _ => some 1, augment := id, validateOk := fun _ => true,
    getString := fun _ k => if k = "linkback" then "x" else "", queryEscape := id,
    cwd := fun _ => none }

/-- Counterexample to C7 as stated: a record that already contains a
non-empty linkback field, processed under a configuration that does not
request linkbacks, is nevertheless emitted with a new linkback appended —
both with an empty filter set and through a matching filter expression. -/
theorem C7_counterexample :
    cfgW.linkback = false ∧
    env7.getString [123, 125] ("linkback") ≠ "" ∧
    (processLine env7 cfgW [] ⟨[], 0⟩ [123, 125]).2.emitted = [addLinkback env7 cfgW [123, 125]] ∧
    (processLine env7 cfgW [fun _ => true] ⟨[], 0⟩ [123, 125]).2.emitted = [addLinkback env7 cfgW [123, 125]] ∧
    addLinkback env7 cfgW [123, 125] ≠ [123, 125] := by
  refine ⟨rfl, by decide, rfl, rfl, by decide⟩

/-- Witness for C7 (amended) at concrete inputs: under envW (empty linkback
field, flag off) the record is emitted unchanged through a matching filter
expression, while under env7 (non-empty linkback field, flag off) the
filter-path emission carries the appended linkback. -/
theorem C7_witness :
    lruContains (⟨[], 0⟩ : PState).cache (blake2bSum256 [8]) = false ∧
    (processLine envW cfgW [fun _ => true] ⟨[], 0⟩ [8]).2.emitted = [[8]] ∧
    (processLine env7 cfgW [fun _ => true, fun _ => false] ⟨[], 0⟩ [9]).2.emitted =
      [addLinkback env7 cfgW [9]] :=
  ⟨by decide,
   C7_linkback_condition envW cfgW [fun _ => true] ⟨[], 0⟩ [8] 1 (by decide) rfl rfl,
   C7_linkback_condition env7 cfgW [fun _ => true, fun _ => false] ⟨[], 0⟩ [9] 1 (by decide) rfl rfl⟩

/-- Helper: the tracked timestamp after one pipeline pass, in every branch
of the body: unchanged on a cache hit or a decode failure, and otherwise
ratcheted against the decoded time (forwarder.go:267-269). -/
theorem processLine_lastTime_eq (env : Env) (cfg : Cfg) (regs : List (List Nat → Bool))
    (ps : PState) (b : List Nat) :
    (processLine env cfg regs ps b).1.lastTime =
      if lruContains ps.cache (blake2bSum256 b) then ps.lastTime
      else
        match env.unmarshalTime b with
        | none => ps.lastTime
        | some t => if t > ps.lastTime then t else ps.lastTime := by
  unfold processLine
  by_cases h : lruContains ps.cache (blake2bSum256 b) <;> simp only [h, if_true, Bool.false_eq_true, if_false]
  cases env.unmarshalTime b with
  | none => rfl
  | some t =>
    dsimp only
    split <;> [skip; rfl]
    split <;> rfl

/-- Helper: one pipeline pass never lowers the tracked timestamp. -/
theorem processLine_lastTime_mono (env : Env) (cfg : Cfg) (regs : List (List Nat → Bool))
    (ps : PState) (b : List Nat) :
    ps.lastTime ≤ (processLine env cfg regs ps b).1.lastTime := by
  rw [processLine_lastTime_eq]
  by_cases h : lruContains ps.cache (blake2bSum256 b)
  · simp [h]
  · simp only [h, Bool.false_eq_true, if_false]
    cases env.unmarshalTime b with
    | none => exact le_refl _
    | some t =>
      dsimp only
      split <;> omega

/-- Helper: a whole stream pass never lowers the tracked timestamp. -/
theorem processLines_lastTime_mono (env : Env) (cfg : Cfg) (regs : List (List Nat → Bool)) :
    ∀ (bs : List (List Nat)) (ps : PState),
      ps.lastTime ≤ (processLines env cfg regs ps bs).1.lastTime := by
  intro bs
  induction bs with
  | nil => intro ps; exact le_refl _
  | cons b rest ih =>
    intro ps
    calc ps.lastTime ≤ (processLine env cfg regs ps b).1.lastTime :=
          processLine_lastTime_mono env cfg regs ps b
      _ ≤ _ := ih _

/-- Helper: the recovery scanner loop never lowers its running maximum. -/
theorem scanLines_lastTime_mono (env : Env) :
    ∀ (bs : List (List Nat)) (acc : WAcc),
      acc.lastTime ≤ (scanLines env acc bs).lastTime := by
  intro bs
  induction bs with
  | nil => intro acc; exact le_refl _
  | cons b rest ih =>
    intro acc
    refine le_trans ?_ (ih _)
    dsimp only
    cases env.unmarshalTime b with
    | none => exact le_refl _
    | some t =>
      dsimp only
      split <;> omega

/-- C9: the tracked last-seen timestamp is monotonically non-decreasing:
one pipeline pass either leaves it unchanged or replaces it with the
strictly greater decoded time of the line just processed; a whole stream
pass (and hence any succession of cycles) never lowers it; and the state
recovery scanner obeys the same ratchet per scanned line. -/
theorem C9_lastTime_monotone :
    (∀ (env : Env) (cfg : Cfg) (regs : List (List Nat → Bool)) (ps : PState) (b : List Nat),
       ps.lastTime ≤ (processLine env cfg regs ps b).1.lastTime ∧
       ((processLine env cfg regs ps b).1.lastTime = ps.lastTime ∨
        ∃ t, env.unmarshalTime b = some t ∧ ps.lastTime < t ∧
          (processLine env cfg regs ps b).1.lastTime = t)) ∧
    (∀ (env : Env) (cfg : Cfg) (regs : List (List Nat → Bool)) (ps : PState) (bs : List (List Nat)),
       ps.lastTime ≤ (processLines env cfg regs ps bs).1.lastTime) ∧
    (∀ (env : Env) (acc : WAcc) (b : List Nat),
       acc.lastTime ≤ (scanLines env acc [b]).lastTime ∧
       ((scanLines env acc [b]).lastTime = acc.lastTime ∨
        ∃ t, env.unmarshalTime b = some t ∧ acc.lastTime < t ∧
          (scanLines env acc [b]).lastTime = t)) := by
  refine ⟨fun env cfg regs ps b => ⟨processLine_lastTime_mono env cfg regs ps b, ?_⟩,
          fun env cfg regs ps bs => processLines_lastTime_mono env cfg regs bs ps,
          fun env acc b => ⟨scanLines_lastTime_mono env [b] acc, ?_⟩⟩
  · rw [processLine_lastTime_eq]
    by_cases h : lruContains ps.cache (blake2bSum256 b)
    · simp [h]
    · simp only [h, Bool.false_eq_true, if_false]
      cases henv : env.unmarshalTime b with
      | none => exact Or.inl rfl
      | some t =>
        dsimp only
        by_cases hgt : t > ps.lastTime
        · exact Or.inr ⟨t, rfl, hgt, by simp [hgt]⟩
        · simp [hgt]
  · show (scanLines env _ []).lastTime = acc.lastTime ∨ _
    unfold scanLines
    cases henv : env.unmarshalTime b with
    | none => exact Or.inl rfl
    | some t =>
      dsimp only
      by_cases hgt : t > acc.lastTime
      · exact Or.inr ⟨t, rfl, hgt, by simp [scanLines, hgt]⟩
      · simp [scanLines, hgt]

/-- C2: for every cycle of the main loop, the computed query window
(start, end) satisfies: end equals the current instant et passed in, and
minQueryOverlap ≤ end - start ≤ maxLookback, regardless of the carried-over
start value and of the tracked last-seen timestamp (unset, recent, or far in
the past). -/
theorem C2_window_bounds (stPrev lastTime et : Int) :
    (computeWindow stPrev lastTime et).2 = et ∧
    minQueryOverlap ≤ et - (computeWindow stPrev lastTime et).1 ∧
    et - (computeWindow stPrev lastTime et).1 ≤ maxLookback := by
  unfold computeWindow minQueryOverlap maxLookback
  dsimp only
  refine ⟨rfl, ?_⟩
  split_ifs <;> constructor <;> simp [minQueryOverlap, maxLookback] <;> omega

/-- Environment of the C4 evaluation: the time field of every line fails to
decode, while validation would succeed if it were reached. -/
def env4 : Env :=
  { unmarshalTime := fun _ => none, augment := fun b => 0 :: b, validateOk := fun _ => true,
    getString := fun _ _ => "", queryEscape := id, cwd := fun _ => none }

/-- C4 evaluation at the failing input: a new line whose time field fails to
decode leaves the tracked timestamp untouched, but — contrary to the claim —
the pipeline does not continue with the remaining steps: the line is counted
new and cached, then the augmentation collaborator is never invoked and
nothing is validated, filtered or emitted, because forwarder.go:264
continues to the next line on a decode error. -/
theorem C4_decode_failure_stops_line :
    processLine env4 cfgW [] { cache := [], lastTime := 5 } [9] =
      ({ cache := [[9]], lastTime := 5 },
       { countedNew := true, augmentCalled := false, invalidLogs := [], emitted := [] }) := by
  decide

/-- Environment of the C6 evaluation: the time field decodes, augmentation
appends a byte, and the augmented bytes fail JSON validation. -/
def env6 : Env :=
  { unmarshalTime := fun _ => some 1, augment := fun b => b ++ [0], validateOk := fun _ => false,
    getString := fun _ _ => "", queryEscape := id, cwd := fun _ => none }

/-- C6 evaluation at the failing input: a new record whose augmented bytes
fail validation yields exactly one error-path log entry and zero emissions,
but the log entry references the response stream reader r
(forwarder.go:296), not the offending line itself as the claim states. -/
theorem C6_invalid_record_logs_stream :
    (processLine env6 cfgW [] { cache := [], lastTime := 0 } [9]).2.invalidLogs = [LogRef.stream] ∧
    (processLine env6 cfgW [] { cache := [], lastTime := 0 } [9]).2.emitted = [] ∧
    LogRef.stream ≠ LogRef.line (env6.augment [9]) ∧
    LogRef.stream ≠ LogRef.line [9] := by
  refine ⟨rfl, rfl, by decide, by decide⟩

/-- Environment of the C3 evaluation: the single rotated file is also
reachable from the working directory and holds one line of record time
42. -/
def env3 : Env :=
  { unmarshalTime := fun _ => some 42, augment := id, validateOk := fun _ => true,
    getString := fun _ _ => "", queryEscape := id,
    cwd := fun n => if n = "spyderbat_events.log" then some { lines := [[1]], scanErr := false } else none }

/-- C3 evaluation at the failing input: state recovery on the
multi-component directory path /logs, whose directory holds one rotated
file with a line of record time 42, returns time zero, opens no file and
seeds no digest, because the walk callback compares the root entry's base
name logs against the whole cleaned path /logs (forwarder.go:54) and skips
the entire directory — instead of returning 42 and seeding the line's
digest as the claim states. -/
theorem C3_recovery_skips_rooted_dir :
    loadState env3 ("/logs") [DirEnt.file ("spyderbat_events.log") [[1]]] =
      { time := 0, adds := [], opened := [], err := false } := by
  decide

/-- C8 (amended): whenever state recovery returns an error, it is surfaced
with a zero timestamp, and the caller proceeds with a zero tracked
last-seen timestamp; startup never fails because of it. (The dedup cache is
not cleared on the way: digests added before the error remain, see the
counterexample.) -/
theorem C8_walk_error_zero_time (env : Env) (p : String) (es : List DirEnt)
    (h : (loadState env p es).err = true) :
    (loadState env p es).time = 0 ∧ mainInitLastTime env p es = 0 := by
  unfold mainInitLastTime
  unfold loadState at h ⊢
  by_cases hb : goBase p ≠ p
  · rw [if_pos hb] at h
    simp at h
  · rw [if_neg hb] at h ⊢
    cases hw : walkEnts env p { lastTime := 0, adds := [], opened := [] } es with
    | mk acc e =>
      rw [hw] at h
      cases e with
      | true => exact ⟨rfl, rfl⟩
      | false => exact Bool.noConfusion h

/-- Environment of the C8 counterexample: the first rotated file opens and
scans cleanly, the second file's open fails. -/
def env8 : Env :=
  { unmarshalTime := fun _ => some 3, augment := id, validateOk := fun _ => true,
    getString := fun _ _ => "", queryEscape := id,
    cwd := fun n => if n = "spyderbat_events_a.log" then some { lines := [[1, 2]], scanErr := false } else none }

/-- Counterexample to C8 as stated: a directory walk that errors after
scanning one file surfaces the error with a zero timestamp, yet the digest
of the scanned line stays in the dedup cache — the caller does not proceed
with an empty cache. -/
theorem C8_counterexample :
    (loadState env8 ("d") [DirEnt.file ("spyderbat_events_a.log") [], DirEnt.file ("spyderbat_events_b.log") []]).err = true ∧
    (loadState env8 ("d") [DirEnt.file ("spyderbat_events_a.log") [], DirEnt.file ("spyderbat_events_b.log") []]).adds = [[1, 2]] ∧
    ([[1, 2]] : List (List Nat)) ≠ [] := by
  refine ⟨by decide, by decide, by decide⟩

/-- Witness for C8 (amended) at a concrete erroring input: the surfaced
timestamp and the startup timestamp are both zero. -/
theorem C8_witness :
    (loadState env8 ("d") [DirEnt.file ("spyderbat_events_b.log") []]).err = true ∧
    ((loadState env8 ("d") [DirEnt.file ("spyderbat_events_b.log") []]).time = 0 ∧
     mainInitLastTime env8 ("d") [DirEnt.file ("spyderbat_events_b.log") []] = 0) :=
  ⟨by decide, C8_walk_error_zero_time env8 ("d") [DirEnt.file ("spyderbat_events_b.log") []] (by decide)⟩

/-- Helper: the walk of a directory listing distributes over append,
stopping at the first error. -/
theorem walkEnts_append (env : Env) (lp : String) :
    ∀ (xs ys : List DirEnt) (acc : WAcc),
      walkEnts env lp acc (xs ++ ys) =
        match walkEnts env lp acc xs with
        | (acc2, true) => (acc2, true)
        | (acc2, false) => walkEnts env lp acc2 ys := by
  intro xs
  induction xs with
  | nil => intro ys acc; rfl
  | cons e rest ih =>
    intro ys acc
    have hl : walkEnts env lp acc (e :: (rest ++ ys)) =
        match walkEnt env lp acc e with
        | (acc2, true) => (acc2, true)
        | (acc2, false) => walkEnts env lp acc2 (rest ++ ys) := rfl
    have hr : walkEnts env lp acc (e :: rest) =
        match walkEnt env lp acc e with
        | (acc2, true) => (acc2, true)
        | (acc2, false) => walkEnts env lp acc2 rest := rfl
    rw [List.cons_append, hl, hr]
    cases walkEnt env lp acc e with
    | mk acc2 er =>
      cases er with
      | true => rfl
      | false => exact ih ys acc2

/-- C10: when the cleaned log path differs from its own final path
component — any absolute or multi-component path — loadState skips the walk
at the root directory and returns timestamp zero with no error, opening no
file and adding no digest; and even when the walk proceeds, the result never
depends on the bytes stored at a file's path inside the directory, because
each matching file is opened by its base name against the process working
directory. -/
theorem C10_walk_path_bug :
    (∀ (env : Env) (p : String) (es : List DirEnt), goBase p ≠ p →
       loadState env p es = { time := 0, adds := [], opened := [], err := false }) ∧
    (∀ (env : Env) (p : String) (pre post : List DirEnt) (n : String) (c1 c2 : List (List Nat)),
       loadState env p (pre ++ DirEnt.file n c1 :: post) =
       loadState env p (pre ++ DirEnt.file n c2 :: post)) := by
  constructor
  · intro env p es h
    unfold loadState
    rw [if_pos h]
  · intro env p pre post n c1 c2
    unfold loadState
    by_cases h : goBase p ≠ p
    · rw [if_pos h, if_pos h]
    · rw [if_neg h, if_neg h]
      rw [walkEnts_append, walkEnts_append]
      have hfile : ∀ acc, walkEnts env p acc (DirEnt.file n c1 :: post) =
          walkEnts env p acc (DirEnt.file n c2 :: post) := by
        intro acc
        unfold walkEnts
        rfl
      cases walkEnts env p { lastTime := 0, adds := [], opened := [] } pre with
      | mk acc e =>
        cases e with
        | true => rfl
        | false =>
          dsimp only
          rw [hfile acc]

/-- Witness for C10 at concrete inputs: recovery on the two-component path
/a/b reads nothing and returns zero without error, and on a one-component
path the result is unchanged when the bytes stored at the file's path
change (only the working-directory content matters). -/
theorem C10_witness :
    loadState envW ("/a/b") [DirEnt.file ("spyderbat_events.log") [[5]]] =
      { time := 0, adds := [], opened := [], err := false } ∧
    loadState envW ("d") [DirEnt.file ("spyderbat_events.log") [[1]]] =
      loadState envW ("d") [DirEnt.file ("spyderbat_events.log") [[2]]] :=
  ⟨C10_walk_path_bug.1 envW ("/a/b") [DirEnt.file ("spyderbat_events.log") [[5]]] (by decide),
   C10_walk_path_bug.2 envW ("d") [] [] ("spyderbat_events.log") [[1]] [[2]]⟩
